import Mathlib

/-
Verification development for halcon2coco_voc.py: a converter from
"Halcon style" XML object-detection files to Pascal VOC and COCO formats.

Shallow embedding notes:
* XML element trees (xml.etree.ElementTree) are modelled by the inductive
  type XmlEl: tag, optional text, ordered children.  `find` on a one-level
  path "bndbox/x1" is modelled by findPath (first matching grandchild in
  document order), `findall` by filtering direct children.
* Python's arbitrary-precision int is Int; image sizes are Nat pairs.
* File-system interaction is an explicit environment Env: the directory
  listing of img_dir (os.listdir order), the readable image sizes, and the
  parsed XML content of each annotation file keyed by basename.
* Exceptions are Except: any error aborts the run and no output value is
  produced (the Python code writes its outputs only after the loops finish,
  so an exception means no output file content exists).
* Python's int(s) is modelled by parseInt (optional sign + digits, the
  semantics of Lean's String.toInt?; Python is slightly more liberal about
  surrounding whitespace and underscores, which no behaviour in this
  program depends on).  String primitives used by the converter (lower,
  endswith, int parsing) are spelled out over character lists so that all
  definitions evaluate by kernel reduction.
-/

deriving instance DecidableEq for Except

namespace HalconConv

/-- An XML element: tag name, optional text content, ordered children. -/
inductive XmlEl where
  | elem (tag : String) (text : Option String) (children : List XmlEl)

def XmlEl.tag : XmlEl → String
  | .elem t _ _ => t

def XmlEl.text : XmlEl → Option String
  | .elem _ tx _ => tx

def XmlEl.children : XmlEl → List XmlEl
  | .elem _ _ c => c

/-- Model of ElementTree findall on a single tag: direct children with that tag, in order. -/
def XmlEl.findall (x : XmlEl) (t : String) : List XmlEl :=
  x.children.filter (fun c => c.tag == t)

/-- Model of ElementTree find on a single tag: first direct child with that tag. -/
def XmlEl.find1 (x : XmlEl) (t : String) : Option XmlEl :=
  (x.findall t).head?

/-- Model of ElementTree find on a one-level path "a/b": first b-grandchild below an a-child, in document order. -/
def XmlEl.findPath (x : XmlEl) (a b : String) : Option XmlEl :=
  (((x.findall a).map (fun c => c.findall b)).flatten).head?

/-- Parse errors of parse_halcon_annotation: a required node is absent
(Python: AttributeError on None.text), or a corner text is not an integer
(Python: int() raising TypeError/ValueError). -/
inductive ParseErr where
  | missingField (tag : String)
  | badInt (tag : String)
deriving DecidableEq

/-- One parsed object: class name text (ElementTree text may be None even
when the name node exists) and the four integer corners. -/
structure Ann where
  name : Option String
  x1 : Int
  y1 : Int
  x2 : Int
  y2 : Int
deriving DecidableEq

def ofOpt : Option α → ε → Except ε α
  | some a, _ => .ok a
  | none, e => .error e

/-- Digit-string value: all characters must be decimal digits and there must be at least one. -/
def digitsToNat? (cs : List Char) : Option Nat :=
  if cs.isEmpty then none
  else if cs.all Char.isDigit then some (cs.foldl (fun n c => n * 10 + (c.toNat - 48)) 0)
  else none

/-- Model of Python int() on a string: optional leading minus sign followed by decimal digits. -/
def parseInt (s : String) : Option Int :=
  match s.toList with
  | '-' :: rest => (digitsToNat? rest).map (fun n => -(n : Int))
  | cs => (digitsToNat? cs).map (fun n => (n : Int))

/-- Model of int(obj.find('bndbox/t').text): the node must exist, its text must exist and parse as an integer. -/
def getCorner (obj : XmlEl) (t : String) : Except ParseErr Int := do
  let el ← ofOpt (obj.findPath "bndbox" t) (.missingField t)
  let s ← ofOpt el.text (.badInt t)
  ofOpt (parseInt s) (.badInt t)

/-- Model of the per-object dict construction in parse_halcon_annotation. -/
def parseObject (obj : XmlEl) : Except ParseErr Ann := do
  let nameEl ← ofOpt (obj.find1 "name") (.missingField "name")
  let x1 ← getCorner obj "x1"
  let y1 ← getCorner obj "y1"
  let x2 ← getCorner obj "x2"
  let y2 ← getCorner obj "y2"
  pure ⟨nameEl.text, x1, y1, x2, y2⟩

/-- The append loop over object nodes: in order, first failure aborts the whole parse. -/
def parseObjs : List XmlEl → Except ParseErr (List Ann)
  | [] => .ok []
  | o :: os => do
    let a ← parseObject o
    let rest ← parseObjs os
    pure (a :: rest)

/-- Model of parse_halcon_annotation: one Ann per direct object child of the root, in file order. -/
def parse_halcon_ann (root : XmlEl) : Except ParseErr (List Ann) :=
  parseObjs (root.findall "object")

/-- The environment a conversion run reads: img_dir path, its os.listdir
listing, the decodable image sizes by filename, and the parsed XML tree of
each annotation file by basename (none = file absent). -/
structure Env where
  imgDir : String
  listing : List String
  imgSize : String → Option (Nat × Nat)
  annFile : String → Option XmlEl

/-- Run-aborting errors of the two converters. -/
inductive ConvErr where
  | imageReadError (file : String)
  | missingAnnFile (base : String)
  | malformedAnn (e : ParseErr)
  | unknownCategory (name : Option String)
deriving DecidableEq

/-- Character-list model of str.lower(). -/
def strLower (s : String) : String :=
  String.mk (s.toList.map Char.toLower)

/-- Character-list model of str.endswith for a single suffix. -/
def strEndsWith (s suf : String) : Bool :=
  suf.toList == s.toList.drop (s.toList.length - suf.toList.length)

/-- Model of img_file.lower().endswith(('.png', '.jpg', '.jpeg')). -/
def isImageFile (f : String) : Bool :=
  strEndsWith (strLower f) ".png" || strEndsWith (strLower f) ".jpg" ||
    strEndsWith (strLower f) ".jpeg"

/-- Index of the last '.' in the character list, if any. -/
def lastDotIdx (cs : List Char) : Option Nat :=
  match cs.reverse.findIdx? (fun c => c == '.') with
  | none => none
  | some k => some (cs.length - 1 - k)

/-- Model of os.path.splitext(p)[0] for a bare filename: cut at the last
dot, unless every character before it is itself a dot (Python treats a
leading run of dots as part of the name, e.g. splitext(".jpg") keeps it). -/
def splitextBase (p : String) : String :=
  let cs := p.toList
  match lastDotIdx cs with
  | none => p
  | some d => if (cs.take d).all (fun c => c == '.') then p else String.mk (cs.take d)

/-! COCO output document. info and licenses are constant ({} and []) and carry no data. -/

structure CocoCat where
  id : Nat
  name : String
  supercategory : String
deriving DecidableEq

structure CocoImage where
  id : Nat
  file_name : String
  width : Nat
  height : Nat
  date_captured : String
  license : Nat
  coco_url : String
  flickr_url : String
deriving DecidableEq

structure CocoAnn where
  id : Nat
  image_id : Nat
  category_id : Nat
  bbox : List Int
  area : Int
  iscrowd : Nat
  segmentation : List (List Int)
deriving DecidableEq

structure CocoDoc where
  categories : List CocoCat
  images : List CocoImage
  annotations : List CocoAnn
deriving DecidableEq

/-- Model of the dict comprehension building category_ids: left to right,
a later binding of the same name overrides an earlier one. -/
def category_ids (names : List String) : String → Option Nat :=
  (List.enumFrom 1 names).foldl (fun m p => fun n => if n = p.2 then some p.1 else m n) (fun _ => none)

/-- The image_info dict appended to coco['images'] for one accepted file. -/
def mkImageInfo (imgId : Nat) (f : String) (w h : Nat) : CocoImage :=
  { id := imgId, file_name := f, width := w, height := h,
    date_captured := "2023-01-01", license := 0, coco_url := "", flickr_url := "" }

/-- Processing of one parsed box inside convert_to_coco: the category id is
looked up by name in the dict (a missing key — including a None name —
raises KeyError), and the annotation entry is built from the corners. -/
def cocoProcessAnn (catIds : String → Option Nat) (imgId : Nat) (a : Ann) (annId : Nat) :
    Except ConvErr CocoAnn :=
  match a.name with
  | none => .error (.unknownCategory none)
  | some n =>
    match catIds n with
    | none => .error (.unknownCategory (some n))
    | some cid =>
      .ok { id := annId, image_id := imgId, category_id := cid,
            bbox := [a.x1, a.y1, a.x2 - a.x1, a.y2 - a.y1],
            area := (a.x2 - a.x1) * (a.y2 - a.y1),
            iscrowd := 0, segmentation := [] }

/-- The inner for-loop of convert_to_coco over one image's parsed boxes,
threading the global ann_id counter (incremented once per box). -/
def processAnns (catIds : String → Option Nat) (imgId : Nat) :
    List Ann → Nat → Except ConvErr (List CocoAnn)
  | [], _ => .ok []
  | a :: rest, annId => do
    let ca ← cocoProcessAnn catIds imgId a annId
    let cas ← processAnns catIds imgId rest (annId + 1)
    pure (ca :: cas)

/-- The main loop of convert_to_coco.  The input list is the enumerate of
the full directory listing starting at 1: the index is attached to every
entry before the extension filter runs, exactly as in the source. -/
def cocoLoop (env : Env) (catIds : String → Option Nat) :
    List (Nat × String) → Nat → Except ConvErr (List CocoImage × List CocoAnn)
  | [], _ => .ok ([], [])
  | (i, f) :: rest, annId =>
    if isImageFile f then do
      let wh ← ofOpt (env.imgSize f) (.imageReadError f)
      let base := splitextBase f
      let x ← ofOpt (env.annFile base) (.missingAnnFile base)
      let anns ← (parse_halcon_ann x).mapError ConvErr.malformedAnn
      let cas ← processAnns catIds i anns annId
      let pr ← cocoLoop env catIds rest (annId + anns.length)
      pure (mkImageInfo i f wh.1 wh.2 :: pr.1, cas ++ pr.2)
    else
      cocoLoop env catIds rest annId

/-- Model of convert_to_coco: the returned document is what json.dump
writes at output_path after the loop finishes; an error means the write
statement is never reached. -/
def convert_to_coco (env : Env) (class_names : List String) : Except ConvErr CocoDoc := do
  let cats := (List.enumFrom 1 class_names).map (fun p => CocoCat.mk p.1 p.2 "none")
  let pr ← cocoLoop env (category_ids class_names) (List.enumFrom 1 env.listing) 1
  pure ⟨cats, pr.1, pr.2⟩

/-- The object XML block built for one parsed box in convert_to_voc. -/
def buildVocObject (a : Ann) : XmlEl :=
  .elem "object" none [
    .elem "name" a.name [],
    .elem "pose" (some "Unspecified") [],
    .elem "truncated" (some "0") [],
    .elem "difficult" (some "0") [],
    .elem "bndbox" none [
      .elem "xmin" (some (toString a.x1)) [],
      .elem "ymin" (some (toString a.y1)) [],
      .elem "xmax" (some (toString a.x2)) [],
      .elem "ymax" (some (toString a.y2)) [] ] ]

def joinPath (a b : String) : String := a ++ "/" ++ b

/-- The whole VOC XML tree built for one image in convert_to_voc. -/
def buildVocTree (imgDir f : String) (w h : Nat) (anns : List Ann) : XmlEl :=
  .elem "annotation" none ([
    .elem "folder" (some "VOC") [],
    .elem "filename" (some f) [],
    .elem "path" (some (joinPath imgDir f)) [],
    .elem "source" none [ .elem "database" (some "Unknown") [] ],
    .elem "size" none [
      .elem "width" (some (toString w)) [],
      .elem "height" (some (toString h)) [],
      .elem "depth" (some "3") [] ] ] ++ anns.map buildVocObject)

/-- The files convert_to_voc writes: one XML tree per accepted image under
Annotations/<id>.xml (in processing order), and the trainval.txt content. -/
structure VocOutput where
  annFiles : List (String × XmlEl)
  trainval : String

/-- The main loop of convert_to_voc: filter, read size, parse the matching
annotation file, build and record the XML tree and the image id. -/
def vocLoop (env : Env) : List String → Except ConvErr (List (String × XmlEl) × List String)
  | [] => .ok ([], [])
  | f :: rest =>
    if isImageFile f then do
      let imgId := splitextBase f
      let wh ← ofOpt (env.imgSize f) (.imageReadError f)
      let x ← ofOpt (env.annFile imgId) (.missingAnnFile imgId)
      let anns ← (parse_halcon_ann x).mapError ConvErr.malformedAnn
      let pr ← vocLoop env rest
      pure ((imgId, buildVocTree env.imgDir f wh.1 wh.2 anns) :: pr.1, imgId :: pr.2)
    else
      vocLoop env rest

/-- Model of convert_to_voc.  class_names is accepted and, as in the
source, never read.  trainval.txt content is the newline join of the
collected ids (write happens only after every image succeeded). -/
def convert_to_voc (env : Env) (class_names : List String) : Except ConvErr VocOutput := do
  let pr ← vocLoop env env.listing
  pure ⟨pr.1, String.intercalate "\n" pr.2⟩

/-! Specification-side predicates, stated in the vocabulary of the claims. -/

/-- A corner field of an object node is present and parses to the value v. -/
def cornerOk (o : XmlEl) (t : String) (v : Int) : Prop :=
  ∃ el s, o.findPath "bndbox" t = some el ∧ el.text = some s ∧ parseInt s = some v

/-- A corner field of an object node is absent or its text is not an integer. -/
def badCorner (o : XmlEl) (t : String) : Prop :=
  o.findPath "bndbox" t = none ∨
  ∃ el, o.findPath "bndbox" t = some el ∧
    (el.text = none ∨ ∃ s, el.text = some s ∧ parseInt s = none)

/-- An Ann faithfully carries the five fields of its object node. -/
def objFieldsOk (o : XmlEl) (a : Ann) : Prop :=
  (∃ ne, o.find1 "name" = some ne ∧ a.name = ne.text) ∧
  cornerOk o "x1" a.x1 ∧ cornerOk o "y1" a.y1 ∧ cornerOk o "x2" a.x2 ∧ cornerOk o "y2" a.y2

/-- Some required field of an object node is absent, or a corner is not an integer. -/
def objBad (o : XmlEl) : Prop :=
  o.find1 "name" = none ∨ badCorner o "x1" ∨ badCorner o "y1" ∨ badCorner o "x2" ∨ badCorner o "y2"

/-- Everything the COCO loop needs from one accepted image succeeds:
readable size, annotation file present, parse succeeds, every class name
is found in the category mapping. -/
def imageStepOk (env : Env) (c : String → Option Nat) (f : String) : Prop :=
  (∃ wh, env.imgSize f = some wh) ∧
  ∃ x anns, env.annFile (splitextBase f) = some x ∧ parse_halcon_ann x = Except.ok anns ∧
    ∀ a ∈ anns, ∃ n cid, a.name = some n ∧ c n = some cid

/-- The annotation side of one accepted image is defective: the file is
missing, or it is malformed, or some parsed box carries a class name that
the category mapping does not know. -/
def annTrouble (env : Env) (c : String → Option Nat) (f : String) : Prop :=
  env.annFile (splitextBase f) = none ∨
  ∃ x, env.annFile (splitextBase f) = some x ∧
    ((∃ e, parse_halcon_ann x = Except.error e) ∨
      ∃ anns a, parse_halcon_ann x = Except.ok anns ∧ a ∈ anns ∧
        (a.name = none ∨ ∃ n, a.name = some n ∧ c n = none))

/-- The 1-based position of the last occurrence of a name in the category list, if any. -/
def lastOccId (names : List String) (n : String) : Option Nat :=
  (((List.enumFrom 1 names).filter (fun p => p.2 == n)).map Prod.fst).getLast?

/-! Concrete sample environments used by witnesses and counterexamples. -/

/-- The spec's example annotation file: one object, class cat, box (10,10,60,40). -/
def xmlCat : XmlEl :=
  .elem "annotation" none [
    .elem "object" none [
      .elem "name" (some "cat") [],
      .elem "bndbox" none [
        .elem "x1" (some "10") [],
        .elem "y1" (some "10") [],
        .elem "x2" (some "60") [],
        .elem "y2" (some "40") [] ] ] ]

/-- An object node that lacks the y2 corner. -/
def objNoY2 : XmlEl :=
  .elem "object" none [
    .elem "name" (some "cat") [],
    .elem "bndbox" none [
      .elem "x1" (some "10") [],
      .elem "y1" (some "10") [],
      .elem "x2" (some "60") [] ] ]

/-- An annotation file whose single object lacks the y2 corner. -/
def xmlNoY2 : XmlEl :=
  .elem "annotation" none [objNoY2]

/-- Directory with one accepted image a.jpg (100 x 50) annotated by xmlCat. -/
def envGood : Env :=
  { imgDir := "img", listing := ["a.jpg"],
    imgSize := fun f => if f = "a.jpg" then some (100, 50) else none,
    annFile := fun b => if b = "a" then some xmlCat else none }

/-- Directory whose listing holds a skipped entry before the accepted image. -/
def envSkip : Env :=
  { imgDir := "img", listing := ["skip.txt", "a.jpg"],
    imgSize := fun f => if f = "a.jpg" then some (100, 50) else none,
    annFile := fun b => if b = "a" then some xmlCat else none }

/-- Directory with two accepted images sharing the basename a; the shared
annotation file holds no objects. -/
def envDup : Env :=
  { imgDir := "img", listing := ["a.jpg", "a.png"],
    imgSize := fun _ => some (10, 10),
    annFile := fun b => if b = "a" then some (.elem "annotation" none []) else none }

/-- Directory with one accepted image whose annotation file is absent. -/
def envMiss : Env :=
  { imgDir := "img", listing := ["a.jpg"],
    imgSize := fun _ => some (5, 5),
    annFile := fun _ => none }

/-- The COCO document produced for envGood with category list [cat]
(the spec's worked example). -/
def docGood : CocoDoc :=
  { categories := [⟨1, "cat", "none"⟩],
    images := [mkImageInfo 1 "a.jpg" 100 50],
    annotations := [⟨1, 1, 1, [10, 10, 50, 30], 1500, 0, []⟩] }

/-- The COCO document produced for envSkip with category list [cat]:
note the image id 2 caused by the skipped first directory entry. -/
def docSkip : CocoDoc :=
  { categories := [⟨1, "cat", "none"⟩],
    images := [mkImageInfo 2 "a.jpg" 100 50],
    annotations := [⟨1, 2, 1, [10, 10, 50, 30], 1500, 0, []⟩] }

/-- The parsed box of xmlCat. -/
def annCat : Ann := ⟨some "cat", 10, 10, 60, 40⟩

/-- The VOC output produced for envGood. -/
def vocOutGood : VocOutput :=
  ⟨[("a", buildVocTree "img" "a.jpg" 100 50 [annCat])], "a"⟩

/-- The VOC output produced for envDup: basename a appears twice. -/
def vocOutDup : VocOutput :=
  ⟨[("a", buildVocTree "img" "a.jpg" 10 10 []), ("a", buildVocTree "img" "a.png" 10 10 [])],
   "a\na"⟩

/-! Basic computation lemmas for the Except monad and ofOpt. -/

theorem err_bind (e : ε) (f : α → Except ε β) : (Except.error e >>= f) = Except.error e := rfl

theorem ok_bind (a : α) (f : α → Except ε β) : (Except.ok a >>= f) = f a := rfl

theorem pure_eq_ok (a : α) : (pure a : Except ε α) = Except.ok a := rfl

theorem mapError_ok (g : ε → ε') (a : α) :
    (Except.ok a : Except ε α).mapError g = Except.ok a := rfl

theorem mapError_err (g : ε → ε') (e : ε) :
    (Except.error e : Except ε α).mapError g = Except.error (g e) := rfl

theorem ofOpt_eq_ok {o : Option α} {e : ε} {a : α} :
    ofOpt o e = Except.ok a ↔ o = some a := by
  cases o <;> simp [ofOpt]

/-! Lemmas about the annotation parser. -/

theorem getCorner_ok {o : XmlEl} {t : String} {v : Int}
    (h : getCorner o t = Except.ok v) : cornerOk o t v := by
  unfold getCorner at h
  cases hfp : o.findPath "bndbox" t with
  | none => rw [hfp] at h; exact absurd h (by simp [ofOpt, err_bind])
  | some el =>
    rw [hfp] at h
    rw [show ofOpt (some el) (ParseErr.missingField t) = Except.ok el from rfl, ok_bind] at h
    cases htx : el.text with
    | none => rw [htx] at h; exact absurd h (by simp [ofOpt, err_bind])
    | some s =>
      rw [htx] at h
      rw [show ofOpt (some s) (ParseErr.badInt t) = Except.ok s from rfl, ok_bind] at h
      exact ⟨el, s, hfp, htx, ofOpt_eq_ok.mp h⟩

theorem parseObject_ok {o : XmlEl} {a : Ann}
    (h : parseObject o = Except.ok a) : objFieldsOk o a := by
  unfold parseObject at h
  cases hne : o.find1 "name" with
  | none => rw [hne] at h; exact absurd h (by simp [ofOpt, err_bind])
  | some ne =>
    rw [hne, show ofOpt (some ne) (ParseErr.missingField "name") = Except.ok ne from rfl,
      ok_bind] at h
    cases h1 : getCorner o "x1" with
    | error e => rw [h1] at h; exact absurd h (by simp [err_bind])
    | ok x1 =>
      rw [h1, ok_bind] at h
      cases h2 : getCorner o "y1" with
      | error e => rw [h2] at h; exact absurd h (by simp [err_bind])
      | ok y1 =>
        rw [h2, ok_bind] at h
        cases h3 : getCorner o "x2" with
        | error e => rw [h3] at h; exact absurd h (by simp [err_bind])
        | ok x2 =>
          rw [h3, ok_bind] at h
          cases h4 : getCorner o "y2" with
          | error e => rw [h4] at h; exact absurd h (by simp [err_bind])
          | ok y2 =>
            rw [h4, ok_bind, pure_eq_ok] at h
            cases h
            exact ⟨⟨ne, hne, rfl⟩, getCorner_ok h1, getCorner_ok h2,
              getCorner_ok h3, getCorner_ok h4⟩

theorem cornerOk_not_bad {o : XmlEl} {t : String} {v : Int}
    (h : cornerOk o t v) : ¬ badCorner o t := by
  obtain ⟨el, s, hfp, htx, hint⟩ := h
  rintro (hb | ⟨el2, hfp2, hb⟩)
  · rw [hfp] at hb; cases hb
  · rw [hfp] at hfp2
    cases hfp2
    rcases hb with hb | ⟨s2, hs2, hb⟩
    · rw [htx] at hb; cases hb
    · rw [htx] at hs2
      cases hs2
      rw [hint] at hb
      cases hb

theorem parseObject_err_of_bad {o : XmlEl} (h : objBad o) :
    ∃ e, parseObject o = Except.error e := by
  cases hpo : parseObject o with
  | error e => exact ⟨e, rfl⟩
  | ok a =>
    exfalso
    obtain ⟨⟨ne, hne, _⟩, c1, c2, c3, c4⟩ := parseObject_ok hpo
    rcases h with h | h | h | h | h
    · rw [hne] at h; cases h
    · exact cornerOk_not_bad c1 h
    · exact cornerOk_not_bad c2 h
    · exact cornerOk_not_bad c3 h
    · exact cornerOk_not_bad c4 h

theorem parseObjs_ok_length :
    ∀ {os : List XmlEl} {l : List Ann}, parseObjs os = Except.ok l → l.length = os.length := by
  intro os
  induction os with
  | nil => intro l h; cases h; rfl
  | cons o rest ih =>
    intro l h
    simp only [parseObjs] at h
    cases h1 : parseObject o with
    | error e => rw [h1, err_bind] at h; cases h
    | ok a =>
      rw [h1, ok_bind] at h
      cases h2 : parseObjs rest with
      | error e => rw [h2, err_bind] at h; cases h
      | ok as =>
        rw [h2, ok_bind, pure_eq_ok] at h
        cases h
        simp [ih h2]

theorem parseObjs_ok_get :
    ∀ {os : List XmlEl} {l : List Ann}, parseObjs os = Except.ok l →
      ∀ k (h1 : k < os.length) (h2 : k < l.length),
        parseObject (os.get ⟨k, h1⟩) = Except.ok (l.get ⟨k, h2⟩) := by
  intro os
  induction os with
  | nil => intro l h k h1; cases h1
  | cons o rest ih =>
    intro l h k h1 h2
    simp only [parseObjs] at h
    cases ho : parseObject o with
    | error e => rw [ho, err_bind] at h; cases h
    | ok a =>
      rw [ho, ok_bind] at h
      cases hr : parseObjs rest with
      | error e => rw [hr, err_bind] at h; cases h
      | ok as =>
        rw [hr, ok_bind, pure_eq_ok] at h
        cases h
        cases k with
        | zero => exact ho
        | succ k => exact ih hr k (Nat.lt_of_succ_lt_succ h1) (Nat.lt_of_succ_lt_succ h2)

theorem parseObjs_err_of_mem :
    ∀ {os : List XmlEl} {o : XmlEl}, o ∈ os → (∃ e, parseObject o = Except.error e) →
      ∃ e2, parseObjs os = Except.error e2 := by
  intro os
  induction os with
  | nil => intro o hmem; cases hmem
  | cons hd rest ih =>
    intro o hmem ⟨e, he⟩
    simp only [parseObjs]
    cases hho : parseObject hd with
    | error e2 => exact ⟨e2, err_bind e2 _⟩
    | ok a =>
      rw [ok_bind]
      rcases List.mem_cons.mp hmem with rfl | hmem2
      · rw [hho] at he; cases he
      · obtain ⟨e2, he2⟩ := ih hmem2 ⟨e, he⟩
        exact ⟨e2, by rw [he2, err_bind]⟩

/-! Lemmas about the category-name-to-id dictionary. -/

theorem category_ids_append (names : List String) (x n : String) :
    category_ids (names ++ [x]) n
      = if n = x then some (names.length + 1) else category_ids names n := by
  unfold category_ids
  rw [List.enumFrom_append, List.foldl_append]
  simp only [List.enumFrom_cons, List.enumFrom_nil, List.foldl_cons, List.foldl_nil]
  by_cases hx : n = x
  · simp [hx, Nat.add_comm]
  · simp [hx, category_ids]

theorem category_ids_eq_lastOccId (names : List String) (n : String) :
    category_ids names n = lastOccId names n := by
  induction names using List.reverseRecOn with
  | nil => rfl
  | append_singleton names x ih =>
    rw [category_ids_append]
    unfold lastOccId
    rw [List.enumFrom_append]
    simp only [List.enumFrom_cons, List.enumFrom_nil, List.filter_append, List.map_append]
    by_cases hx : n = x
    · subst hx
      simp [List.getLast?_concat, Nat.add_comm]
    · have hbe : (x == n) = false := beq_eq_false_iff_ne.mpr (Ne.symm hx)
      simp [List.filter, hbe, hx, ih, lastOccId]

theorem category_ids_mem {names : List String} {n : String} {i : Nat}
    (h : category_ids names n = some i) : (i, n) ∈ List.enumFrom 1 names := by
  induction names using List.reverseRecOn with
  | nil => cases h
  | append_singleton names x ih =>
    rw [category_ids_append] at h
    rw [List.enumFrom_append]
    by_cases hx : n = x
    · rw [if_pos hx] at h
      cases h
      subst hx
      exact List.mem_append_right _ (by simp [Nat.add_comm])
    · rw [if_neg hx] at h
      exact List.mem_append_left _ (ih h)

/-! Lemmas about the COCO conversion loop. -/

theorem cocoProcessAnn_ok {c : String → Option Nat} {i : Nat} {a : Ann} {k : Nat} {ca : CocoAnn}
    (h : cocoProcessAnn c i a k = Except.ok ca) :
    ca.id = k ∧ ca.image_id = i ∧
    ca.bbox = [a.x1, a.y1, a.x2 - a.x1, a.y2 - a.y1] ∧
    ca.area = (a.x2 - a.x1) * (a.y2 - a.y1) ∧
    ∃ n, a.name = some n ∧ c n = some ca.category_id := by
  unfold cocoProcessAnn at h
  split at h
  · cases h
  · split at h
    · cases h
    · cases h
      rename_i xv1 n hn xv2 cid hc
      exact ⟨rfl, rfl, rfl, rfl, n, hn, hc⟩

theorem cocoProcessAnn_err_unknown {c : String → Option Nat} (i : Nat) {a : Ann} (k : Nat)
    (h : a.name = none ∨ ∃ n, a.name = some n ∧ c n = none) :
    ∃ m, cocoProcessAnn c i a k = Except.error (ConvErr.unknownCategory m) := by
  unfold cocoProcessAnn
  rcases h with h | ⟨n, hn, hc⟩
  · rw [h]
    exact ⟨none, rfl⟩
  · rw [hn]
    exact ⟨some n, by simp [hc]⟩

theorem processAnns_cons_ok {c : String → Option Nat} {i : Nat} {a : Ann} {rest : List Ann}
    {k : Nat} {out : List CocoAnn} (h : processAnns c i (a :: rest) k = Except.ok out) :
    ∃ ca cas, cocoProcessAnn c i a k = Except.ok ca ∧
      processAnns c i rest (k + 1) = Except.ok cas ∧ out = ca :: cas := by
  simp only [processAnns] at h
  cases h1 : cocoProcessAnn c i a k with
  | error e => rw [h1, err_bind] at h; cases h
  | ok ca =>
    rw [h1, ok_bind] at h
    cases h2 : processAnns c i rest (k + 1) with
    | error e => rw [h2, err_bind] at h; cases h
    | ok cas =>
      rw [h2, ok_bind, pure_eq_ok] at h
      cases h
      exact ⟨ca, cas, rfl, rfl, rfl⟩

theorem processAnns_ok_length {c : String → Option Nat} {i : Nat} :
    ∀ {anns : List Ann} {k : Nat} {out : List CocoAnn},
      processAnns c i anns k = Except.ok out → out.length = anns.length := by
  intro anns
  induction anns with
  | nil => intro k out h; cases h; rfl
  | cons a rest ih =>
    intro k out h
    obtain ⟨ca, cas, _, h2, rfl⟩ := processAnns_cons_ok h
    simp [ih h2]

theorem processAnns_ok_ids {c : String → Option Nat} {i : Nat} :
    ∀ {anns : List Ann} {k : Nat} {out : List CocoAnn},
      processAnns c i anns k = Except.ok out →
      out.map CocoAnn.id = List.range' k anns.length := by
  intro anns
  induction anns with
  | nil => intro k out h; cases h; rfl
  | cons a rest ih =>
    intro k out h
    obtain ⟨ca, cas, h1, h2, rfl⟩ := processAnns_cons_ok h
    have hid := (cocoProcessAnn_ok h1).1
    simp [hid, ih h2, List.range'_succ]

theorem processAnns_ok_mem {c : String → Option Nat} {i : Nat} :
    ∀ {anns : List Ann} {k : Nat} {out : List CocoAnn},
      processAnns c i anns k = Except.ok out →
      ∀ ca ∈ out, ∃ a, a ∈ anns ∧ ∃ j, cocoProcessAnn c i a j = Except.ok ca := by
  intro anns
  induction anns with
  | nil => intro k out h; cases h; intro ca hca; cases hca
  | cons a rest ih =>
    intro k out h
    obtain ⟨ca, cas, h1, h2, rfl⟩ := processAnns_cons_ok h
    intro ca2 hca2
    rcases List.mem_cons.mp hca2 with rfl | hca2
    · exact ⟨a, List.mem_cons_self a rest, k, h1⟩
    · obtain ⟨a2, ha2, j, hj⟩ := ih h2 ca2 hca2
      exact ⟨a2, List.mem_cons_of_mem a ha2, j, hj⟩

theorem processAnns_ok_names {c : String → Option Nat} {i : Nat} :
    ∀ {anns : List Ann} {k : Nat} {out : List CocoAnn},
      processAnns c i anns k = Except.ok out →
      ∀ a ∈ anns, ∃ n cid, a.name = some n ∧ c n = some cid := by
  intro anns
  induction anns with
  | nil => intro k out h a ha; cases ha
  | cons a rest ih =>
    intro k out h a2 ha2
    obtain ⟨ca, cas, h1, h2, rfl⟩ := processAnns_cons_ok h
    rcases List.mem_cons.mp ha2 with rfl | ha2
    · obtain ⟨_, _, _, _, n, hn, hc⟩ := cocoProcessAnn_ok h1
      exact ⟨n, ca.category_id, hn, hc⟩
    · exact ih h2 a2 ha2

theorem cocoLoop_cons_skip {env : Env} {c : String → Option Nat} {i : Nat} {f : String}
    {rest : List (Nat × String)} {k : Nat} (hif : isImageFile f = false) :
    cocoLoop env c ((i, f) :: rest) k = cocoLoop env c rest k := by
  simp only [cocoLoop, hif, Bool.false_eq_true, if_false]

theorem cocoLoop_cons_ok {env : Env} {c : String → Option Nat} {i : Nat} {f : String}
    {rest : List (Nat × String)} {k : Nat} {pr : List CocoImage × List CocoAnn}
    (hif : isImageFile f = true)
    (h : cocoLoop env c ((i, f) :: rest) k = Except.ok pr) :
    ∃ wh x anns cas pr2,
      env.imgSize f = some wh ∧
      env.annFile (splitextBase f) = some x ∧
      parse_halcon_ann x = Except.ok anns ∧
      processAnns c i anns k = Except.ok cas ∧
      cocoLoop env c rest (k + anns.length) = Except.ok pr2 ∧
      pr = (mkImageInfo i f wh.1 wh.2 :: pr2.1, cas ++ pr2.2) := by
  simp only [cocoLoop, hif, if_true] at h
  cases h1 : env.imgSize f with
  | none => rw [h1] at h; exact absurd h (by simp [ofOpt, err_bind])
  | some wh =>
    rw [h1, show ofOpt (some wh) (ConvErr.imageReadError f) = Except.ok wh from rfl,
      ok_bind] at h
    cases h2 : env.annFile (splitextBase f) with
    | none => rw [h2] at h; exact absurd h (by simp [ofOpt, err_bind])
    | some x =>
      rw [h2, show ofOpt (some x) (ConvErr.missingAnnFile (splitextBase f)) = Except.ok x from rfl,
        ok_bind] at h
      cases h3 : parse_halcon_ann x with
      | error e => rw [h3, mapError_err, err_bind] at h; cases h
      | ok anns =>
        rw [h3, mapError_ok, ok_bind] at h
        cases h4 : processAnns c i anns k with
        | error e => rw [h4, err_bind] at h; cases h
        | ok cas =>
          rw [h4, ok_bind] at h
          cases h5 : cocoLoop env c rest (k + anns.length) with
          | error e => rw [h5, err_bind] at h; cases h
          | ok pr2 =>
            rw [h5, ok_bind, pure_eq_ok] at h
            cases h
            exact ⟨wh, x, anns, cas, pr2, rfl, rfl, h3, h4, h5, rfl⟩

theorem cocoLoop_ok_imageIds {env : Env} {c : String → Option Nat} :
    ∀ {l : List (Nat × String)} {k : Nat} {pr : List CocoImage × List CocoAnn},
      cocoLoop env c l k = Except.ok pr →
      pr.1.map CocoImage.id = (l.filter (fun p => isImageFile p.2)).map Prod.fst := by
  intro l
  induction l with
  | nil => intro k pr h; cases h; rfl
  | cons p rest ih =>
    intro k pr h
    obtain ⟨i, f⟩ := p
    cases hif : isImageFile f with
    | false =>
      rw [cocoLoop_cons_skip hif] at h
      simp only [List.filter_cons, hif, Bool.false_eq_true, if_false]
      exact ih h
    | true =>
      obtain ⟨wh, x, anns, cas, pr2, _, _, _, _, h5, rfl⟩ := cocoLoop_cons_ok hif h
      simp only [List.filter_cons, hif, if_true]
      simpa [mkImageInfo] using ih h5

theorem cocoLoop_ok_annIds {env : Env} {c : String → Option Nat} :
    ∀ {l : List (Nat × String)} {k : Nat} {pr : List CocoImage × List CocoAnn},
      cocoLoop env c l k = Except.ok pr →
      pr.2.map CocoAnn.id = List.range' k pr.2.length := by
  intro l
  induction l with
  | nil => intro k pr h; cases h; rfl
  | cons p rest ih =>
    intro k pr h
    obtain ⟨i, f⟩ := p
    cases hif : isImageFile f with
    | false =>
      rw [cocoLoop_cons_skip hif] at h
      exact ih h
    | true =>
      obtain ⟨wh, x, anns, cas, pr2, _, _, _, h4, h5, rfl⟩ := cocoLoop_cons_ok hif h
      have hlen : cas.length = anns.length := processAnns_ok_length h4
      have hids : cas.map CocoAnn.id = List.range' k anns.length := processAnns_ok_ids h4
      have hrec := ih h5
      rw [← hlen] at hids hrec
      simp only [List.map_append, List.length_append, hids, hrec]
      rw [List.range'_append_1, Nat.add_comm]

theorem cocoLoop_ok_mem_ann {env : Env} {c : String → Option Nat} :
    ∀ {l : List (Nat × String)} {k : Nat} {pr : List CocoImage × List CocoAnn},
      cocoLoop env c l k = Except.ok pr →
      ∀ ca ∈ pr.2, ∃ i a j, cocoProcessAnn c i a j = Except.ok ca := by
  intro l
  induction l with
  | nil => intro k pr h; cases h; intro ca hca; cases hca
  | cons p rest ih =>
    intro k pr h
    obtain ⟨i, f⟩ := p
    cases hif : isImageFile f with
    | false =>
      rw [cocoLoop_cons_skip hif] at h
      exact ih h
    | true =>
      obtain ⟨wh, x, anns, cas, pr2, _, _, _, h4, h5, rfl⟩ := cocoLoop_cons_ok hif h
      intro ca hca
      rcases List.mem_append.mp hca with hca | hca
      · obtain ⟨a, _, j, hj⟩ := processAnns_ok_mem h4 ca hca
        exact ⟨i, a, j, hj⟩
      · exact ih h5 ca hca

theorem cocoLoop_ok_stepOk {env : Env} {c : String → Option Nat} :
    ∀ {l : List (Nat × String)} {k : Nat} {pr : List CocoImage × List CocoAnn},
      cocoLoop env c l k = Except.ok pr →
      ∀ p ∈ l, isImageFile p.2 = true → imageStepOk env c p.2 := by
  intro l
  induction l with
  | nil => intro k pr h p hp; cases hp
  | cons p0 rest ih =>
    intro k pr h p hp hpi
    obtain ⟨i, f⟩ := p0
    rcases List.mem_cons.mp hp with rfl | hp2
    · obtain ⟨wh, x, anns, cas, pr2, h1, h2, h3, h4, _, _⟩ := cocoLoop_cons_ok hpi h
      exact ⟨⟨wh, h1⟩, x, anns, h2, h3, processAnns_ok_names h4⟩
    · cases hif : isImageFile f with
      | false =>
        rw [cocoLoop_cons_skip hif] at h
        exact ih h p hp2 hpi
      | true =>
        obtain ⟨wh, x, anns, cas, pr2, _, _, _, _, h5, rfl⟩ := cocoLoop_cons_ok hif h
        exact ih h5 p hp2 hpi

theorem convert_to_coco_ok {env : Env} {cn : List String} {doc : CocoDoc}
    (h : convert_to_coco env cn = Except.ok doc) :
    ∃ pr, cocoLoop env (category_ids cn) (List.enumFrom 1 env.listing) 1 = Except.ok pr ∧
      doc.categories = (List.enumFrom 1 cn).map (fun p => CocoCat.mk p.1 p.2 "none") ∧
      doc.images = pr.1 ∧ doc.annotations = pr.2 := by
  unfold convert_to_coco at h
  cases h1 : cocoLoop env (category_ids cn) (List.enumFrom 1 env.listing) 1 with
  | error e => rw [h1, err_bind] at h; cases h
  | ok pr =>
    rw [h1, ok_bind, pure_eq_ok] at h
    cases h
    exact ⟨pr, rfl, rfl, rfl, rfl⟩

theorem convert_to_coco_err {env : Env} {cn : List String}
    (h : ∃ e, cocoLoop env (category_ids cn) (List.enumFrom 1 env.listing) 1 = Except.error e) :
    ∃ e, convert_to_coco env cn = Except.error e := by
  obtain ⟨e, he⟩ := h
  exact ⟨e, by unfold convert_to_coco; rw [he, err_bind]⟩

/-! Lemmas about the VOC conversion loop. -/

theorem vocLoop_cons_skip {env : Env} {f : String} {rest : List String}
    (hif : isImageFile f = false) :
    vocLoop env (f :: rest) = vocLoop env rest := by
  simp only [vocLoop, hif, Bool.false_eq_true, if_false]

theorem vocLoop_cons_ok {env : Env} {f : String} {rest : List String}
    {pr : List (String × XmlEl) × List String}
    (hif : isImageFile f = true) (h : vocLoop env (f :: rest) = Except.ok pr) :
    ∃ wh x anns pr2,
      env.imgSize f = some wh ∧
      env.annFile (splitextBase f) = some x ∧
      parse_halcon_ann x = Except.ok anns ∧
      vocLoop env rest = Except.ok pr2 ∧
      pr = ((splitextBase f, buildVocTree env.imgDir f wh.1 wh.2 anns) :: pr2.1,
            splitextBase f :: pr2.2) := by
  simp only [vocLoop, hif, if_true] at h
  cases h1 : env.imgSize f with
  | none => rw [h1] at h; exact absurd h (by simp [ofOpt, err_bind])
  | some wh =>
    rw [h1, show ofOpt (some wh) (ConvErr.imageReadError f) = Except.ok wh from rfl,
      ok_bind] at h
    cases h2 : env.annFile (splitextBase f) with
    | none => rw [h2] at h; exact absurd h (by simp [ofOpt, err_bind])
    | some x =>
      rw [h2, show ofOpt (some x) (ConvErr.missingAnnFile (splitextBase f)) = Except.ok x from rfl,
        ok_bind] at h
      cases h3 : parse_halcon_ann x with
      | error e => rw [h3, mapError_err, err_bind] at h; cases h
      | ok anns =>
        rw [h3, mapError_ok, ok_bind] at h
        cases h4 : vocLoop env rest with
        | error e => rw [h4, err_bind] at h; cases h
        | ok pr2 =>
          rw [h4, ok_bind, pure_eq_ok] at h
          cases h
          exact ⟨wh, x, anns, pr2, rfl, rfl, h3, rfl, rfl⟩

theorem vocLoop_ok_ids {env : Env} :
    ∀ {l : List String} {pr : List (String × XmlEl) × List String},
      vocLoop env l = Except.ok pr →
      pr.2 = (l.filter (fun f => isImageFile f)).map splitextBase := by
  intro l
  induction l with
  | nil => intro pr h; cases h; rfl
  | cons f rest ih =>
    intro pr h
    cases hif : isImageFile f with
    | false =>
      rw [vocLoop_cons_skip hif] at h
      simp only [List.filter_cons, hif, Bool.false_eq_true, if_false]
      exact ih h
    | true =>
      obtain ⟨wh, x, anns, pr2, _, _, _, h4, rfl⟩ := vocLoop_cons_ok hif h
      simp only [List.filter_cons, hif, if_true, List.map_cons]
      simpa using ih h4

theorem vocLoop_ok_files {env : Env} :
    ∀ {l : List String} {pr : List (String × XmlEl) × List String},
      vocLoop env l = Except.ok pr →
      ∀ q ∈ pr.1, ∃ f wh x anns,
        f ∈ l ∧ isImageFile f = true ∧
        env.imgSize f = some wh ∧
        env.annFile (splitextBase f) = some x ∧
        parse_halcon_ann x = Except.ok anns ∧
        q = (splitextBase f, buildVocTree env.imgDir f wh.1 wh.2 anns) := by
  intro l
  induction l with
  | nil => intro pr h; cases h; intro q hq; cases hq
  | cons f rest ih =>
    intro pr h q hq
    cases hif : isImageFile f with
    | false =>
      rw [vocLoop_cons_skip hif] at h
      obtain ⟨f2, wh, x, anns, hmem, rest2⟩ := ih h q hq
      exact ⟨f2, wh, x, anns, List.mem_cons_of_mem f hmem, rest2⟩
    | true =>
      obtain ⟨wh, x, anns, pr2, h1, h2, h3, h4, rfl⟩ := vocLoop_cons_ok hif h
      rcases List.mem_cons.mp hq with rfl | hq2
      · exact ⟨f, wh, x, anns, List.mem_cons_self f rest, hif, h1, h2, h3, rfl⟩
      · obtain ⟨f2, wh2, x2, anns2, hmem, rest2⟩ := ih h4 q hq2
        exact ⟨f2, wh2, x2, anns2, List.mem_cons_of_mem f hmem, rest2⟩

theorem vocLoop_err_not_unknown {env : Env} :
    ∀ {l : List String} {e : ConvErr}, vocLoop env l = Except.error e →
      ∀ n, e ≠ ConvErr.unknownCategory n := by
  intro l
  induction l with
  | nil => intro e h; cases h
  | cons f rest ih =>
    intro e h n
    cases hif : isImageFile f with
    | false =>
      rw [vocLoop_cons_skip hif] at h
      exact ih h n
    | true =>
      simp only [vocLoop, hif, if_true] at h
      cases h1 : env.imgSize f with
      | none =>
        rw [h1, show ofOpt (none : Option (Nat × Nat)) (ConvErr.imageReadError f)
          = Except.error (ConvErr.imageReadError f) from rfl, err_bind] at h
        cases h
        exact fun hx => ConvErr.noConfusion hx
      | some wh =>
        rw [h1, show ofOpt (some wh) (ConvErr.imageReadError f) = Except.ok wh from rfl,
          ok_bind] at h
        cases h2 : env.annFile (splitextBase f) with
        | none =>
          rw [h2, show ofOpt (none : Option XmlEl) (ConvErr.missingAnnFile (splitextBase f))
            = Except.error (ConvErr.missingAnnFile (splitextBase f)) from rfl, err_bind] at h
          cases h
          exact fun hx => ConvErr.noConfusion hx
        | some x =>
          rw [h2, show ofOpt (some x) (ConvErr.missingAnnFile (splitextBase f))
            = Except.ok x from rfl, ok_bind] at h
          cases h3 : parse_halcon_ann x with
          | error e2 =>
            rw [h3, mapError_err, err_bind] at h
            cases h
            exact fun hx => ConvErr.noConfusion hx
          | ok anns =>
            rw [h3, mapError_ok, ok_bind] at h
            cases h4 : vocLoop env rest with
            | error e2 =>
              rw [h4, err_bind] at h
              cases h
              exact ih h4 n
            | ok pr2 =>
              rw [h4, ok_bind, pure_eq_ok] at h
              cases h

theorem convert_to_voc_ok {env : Env} {cn : List String} {out : VocOutput}
    (h : convert_to_voc env cn = Except.ok out) :
    ∃ pr, vocLoop env env.listing = Except.ok pr ∧
      out.annFiles = pr.1 ∧ out.trainval = String.intercalate "\n" pr.2 := by
  unfold convert_to_voc at h
  cases h1 : vocLoop env env.listing with
  | error e => rw [h1, err_bind] at h; cases h
  | ok pr =>
    rw [h1, ok_bind, pure_eq_ok] at h
    cases h
    exact ⟨pr, rfl, rfl, rfl⟩

/-! Further supporting lemmas. -/

theorem processAnns_ok_get {c : String → Option Nat} {i : Nat} :
    ∀ {anns : List Ann} {k : Nat} {out : List CocoAnn},
      processAnns c i anns k = Except.ok out →
      ∀ j (h1 : j < anns.length) (h2 : j < out.length),
        cocoProcessAnn c i (anns.get ⟨j, h1⟩) (k + j) = Except.ok (out.get ⟨j, h2⟩) := by
  intro anns
  induction anns with
  | nil => intro k out h j h1; cases h1
  | cons a rest ih =>
    intro k out h j h1 h2
    obtain ⟨ca, cas, hca, hrest, rfl⟩ := processAnns_cons_ok h
    cases j with
    | zero => simpa using hca
    | succ j =>
      have := ih hrest j (Nat.lt_of_succ_lt_succ h1) (Nat.lt_of_succ_lt_succ h2)
      simpa [Nat.add_assoc, Nat.add_comm 1 j] using this

theorem vocLoop_ok_fileIds {env : Env} :
    ∀ {l : List String} {pr : List (String × XmlEl) × List String},
      vocLoop env l = Except.ok pr →
      pr.1.map Prod.fst = (l.filter (fun f => isImageFile f)).map splitextBase := by
  intro l
  induction l with
  | nil => intro pr h; cases h; rfl
  | cons f rest ih =>
    intro pr h
    cases hif : isImageFile f with
    | false =>
      rw [vocLoop_cons_skip hif] at h
      simp only [List.filter_cons, hif, Bool.false_eq_true, if_false]
      exact ih h
    | true =>
      obtain ⟨wh, x, anns, pr2, _, _, _, h4, rfl⟩ := vocLoop_cons_ok hif h
      simp only [List.filter_cons, hif, if_true, List.map_cons]
      simpa using ih h4

theorem annTrouble_not_stepOk {env : Env} {c : String → Option Nat} {f : String}
    (ht : annTrouble env c f) (hok : imageStepOk env c f) : False := by
  obtain ⟨_, x, anns, hx, hparse, hnames⟩ := hok
  rcases ht with ht | ⟨x2, hx2, ht⟩
  · rw [hx] at ht; cases ht
  · rw [hx] at hx2
    cases hx2
    rcases ht with ⟨e, he⟩ | ⟨anns2, a, hp2, ha, hbad⟩
    · rw [hparse] at he; cases he
    · rw [hparse] at hp2
      cases hp2
      obtain ⟨n, cid, hn, hc⟩ := hnames a ha
      rcases hbad with hbad | ⟨n2, hn2, hc2⟩
      · rw [hn] at hbad; cases hbad
      · rw [hn] at hn2
        cases hn2
        rw [hc] at hc2
        cases hc2

theorem convert_to_voc_err {env : Env} {cn : List String} {e : ConvErr}
    (h : convert_to_voc env cn = Except.error e) :
    vocLoop env env.listing = Except.error e := by
  unfold convert_to_voc at h
  cases h1 : vocLoop env env.listing with
  | error e2 =>
    rw [h1, err_bind] at h
    cases h
    rfl
  | ok pr => rw [h1, ok_bind, pure_eq_ok] at h; cases h

theorem buildVocObject_bndbox (a : Ann) :
    ((buildVocObject a).findPath "bndbox" "xmin").bind XmlEl.text = some (toString a.x1) ∧
    ((buildVocObject a).findPath "bndbox" "ymin").bind XmlEl.text = some (toString a.y1) ∧
    ((buildVocObject a).findPath "bndbox" "xmax").bind XmlEl.text = some (toString a.x2) ∧
    ((buildVocObject a).findPath "bndbox" "ymax").bind XmlEl.text = some (toString a.y2) :=
  ⟨rfl, rfl, rfl, rfl⟩

theorem buildVocTree_objects (d f : String) (w h : Nat) (anns : List Ann) :
    (buildVocTree d f w h anns).findall "object" = anns.map buildVocObject := by
  show List.filter _ (_ ++ anns.map buildVocObject) = anns.map buildVocObject
  rw [List.filter_append]
  have h1 : ∀ l : List Ann,
      List.filter (fun c => XmlEl.tag c == "object") (l.map buildVocObject)
        = l.map buildVocObject := by
    intro l
    induction l with
    | nil => rfl
    | cons a rest ih =>
      simp only [List.map_cons, List.filter_cons, buildVocObject, XmlEl.tag,
        beq_self_eq_true, if_true]
      exact congrArg (List.cons _) ih
  rw [h1]
  rfl

/-! Claim theorems. -/

/-- Claim C1, counterexample.  The claim says the k-th accepted image
receives image id k independently of skipped directory entries.  In
envSkip the listing is [skip.txt, a.jpg]: the first (and only) accepted
image receives image id 2, not 1, because convert_to_coco attaches the
enumeration index to every directory entry before the extension filter
runs, so skipped entries shift the ids. -/
theorem c1_counterexample :
    (convert_to_coco envSkip ["cat"]).map (fun d => d.images.map CocoImage.id)
      = Except.ok [2] ∧ [2] ≠ [1] :=
  ⟨by decide, by decide⟩

/-- Claim C1, amended.  In COCO export the image id of each accepted image
equals its 1-based position in the full directory listing (counting
skipped entries as well): the images table carries exactly the enumeration
indices of the entries that pass the extension filter, in listing order. -/
theorem c1_image_ids_are_listing_positions {env : Env} {cn : List String} {doc : CocoDoc}
    (h : convert_to_coco env cn = Except.ok doc) :
    doc.images.map CocoImage.id
      = ((List.enumFrom 1 env.listing).filter (fun p => isImageFile p.2)).map Prod.fst := by
  obtain ⟨pr, hloop, _, himg, _⟩ := convert_to_coco_ok h
  rw [himg]
  exact cocoLoop_ok_imageIds hloop

/-- Witness for c1_image_ids_are_listing_positions at envSkip. -/
theorem c1_image_ids_are_listing_positions_witness :
    docSkip.images.map CocoImage.id
      = ((List.enumFrom 1 envSkip.listing).filter (fun p => isImageFile p.2)).map Prod.fst :=
  @c1_image_ids_are_listing_positions envSkip ["cat"] docSkip (by decide)

/-- Claim C2, counterexample.  The claim says trainval.txt never holds
duplicate lines.  In envDup the accepted files a.jpg and a.png share the
basename a, so trainval.txt is the two identical lines a and a. -/
theorem c2_counterexample :
    (convert_to_voc envDup []).map VocOutput.trainval = Except.ok "a\na" ∧
    (convert_to_voc envDup []).map (fun o => o.annFiles.map Prod.fst) = Except.ok ["a", "a"] ∧
    "a\na" = String.intercalate "\n" ["a", "a"] ∧
    ¬ (["a", "a"].Nodup) :=
  ⟨by decide, by decide, rfl, by decide⟩

/-- Claim C2, amended.  For every input directory on which VOC export
succeeds, trainval.txt is the newline join (last line unterminated) of the
basenames of the accepted image files, one entry per accepted file in
enumeration order; the written annotation files carry the same ids in the
same order.  Lines can repeat exactly when two accepted files share a
basename. -/
theorem c2_trainval_is_join_of_accepted_basenames {env : Env} {cn : List String}
    {out : VocOutput} (h : convert_to_voc env cn = Except.ok out) :
    out.trainval
      = String.intercalate "\n" ((env.listing.filter (fun f => isImageFile f)).map splitextBase) ∧
    out.annFiles.map Prod.fst
      = (env.listing.filter (fun f => isImageFile f)).map splitextBase := by
  obtain ⟨pr, hloop, hfiles, htv⟩ := convert_to_voc_ok h
  constructor
  · rw [htv, vocLoop_ok_ids hloop]
  · rw [hfiles]
    exact vocLoop_ok_fileIds hloop

/-- Witness for c2_trainval_is_join_of_accepted_basenames at envDup. -/
theorem c2_trainval_is_join_of_accepted_basenames_witness :
    vocOutDup.trainval
      = String.intercalate "\n"
          ((envDup.listing.filter (fun f => isImageFile f)).map splitextBase) ∧
    vocOutDup.annFiles.map Prod.fst
      = (envDup.listing.filter (fun f => isImageFile f)).map splitextBase :=
  @c2_trainval_is_join_of_accepted_basenames envDup [] vocOutDup (by rfl)

/-- Claim C3, confirmed.  COCO export is atomic on error: if any accepted
image's annotation file is missing, malformed, or holds a box whose class
name the category mapping does not know, the whole run returns an error,
so the final json.dump statement is never reached and no output document
exists (partial or otherwise). -/
theorem c3_no_output_on_annotation_trouble {env : Env} {cn : List String}
    (h : ∃ p ∈ List.enumFrom 1 env.listing,
      isImageFile p.2 = true ∧ annTrouble env (category_ids cn) p.2) :
    ∃ e, convert_to_coco env cn = Except.error e := by
  obtain ⟨p, hp, hpi, hpt⟩ := h
  cases hres : convert_to_coco env cn with
  | error e => exact ⟨e, rfl⟩
  | ok doc =>
    exfalso
    obtain ⟨pr, hloop, _, _, _⟩ := convert_to_coco_ok hres
    exact annTrouble_not_stepOk hpt (cocoLoop_ok_stepOk hloop p hp hpi)

/-- Witness for c3_no_output_on_annotation_trouble at envMiss (annotation file absent). -/
theorem c3_no_output_on_annotation_trouble_witness :
    ∃ e, convert_to_coco envMiss [] = Except.error e :=
  c3_no_output_on_annotation_trouble
    ⟨(1, "a.jpg"), by decide, by decide, Or.inl rfl⟩

/-- Claim C4, counterexample.  The claim says category_id always equals 1
plus the index of the class name in categoryNames.  With the duplicated
list [cat, cat], the index of cat is 0, so the claim demands
category_id 1; the code emits 2, because the dict comprehension binds each
name to its last enumeration position. -/
theorem c4_counterexample :
    (convert_to_coco envGood ["cat", "cat"]).map (fun d => d.annotations.map CocoAnn.category_id)
      = Except.ok [2] ∧
    List.findIdx (fun s => s == "cat") ["cat", "cat"] = 0 ∧
    (2 : Nat) ≠ 1 + 0 :=
  ⟨by decide, by decide, by decide⟩

/-- Claim C4, amended.  The categories table lists the names of
categoryNames in order with id equal to the 1-based position and
supercategory none; every emitted annotation's category_id equals the
1-based position of the LAST occurrence of that annotation's class name
in categoryNames (which is the unique position whenever the names are
distinct). -/
theorem c4_category_table_and_last_occurrence_ids {env : Env} {cn : List String} {doc : CocoDoc}
    (h : convert_to_coco env cn = Except.ok doc) :
    (doc.categories.length = cn.length ∧
     ∀ k n, cn[k]? = some n → doc.categories[k]? = some (CocoCat.mk (k + 1) n "none")) ∧
    ∀ ca ∈ doc.annotations, ∃ i a j n,
      cocoProcessAnn (category_ids cn) i a j = Except.ok ca ∧
      a.name = some n ∧ lastOccId cn n = some ca.category_id := by
  obtain ⟨pr, hloop, hcat, _, hanns⟩ := convert_to_coco_ok h
  refine ⟨⟨by rw [hcat]; simp, ?_⟩, ?_⟩
  · intro k n hk
    rw [hcat]
    simp [List.getElem?_map, List.getElem?_enumFrom, hk, Nat.add_comm]
  · intro ca hca
    rw [hanns] at hca
    obtain ⟨i, a, j, hj⟩ := cocoLoop_ok_mem_ann hloop ca hca
    obtain ⟨_, _, _, _, n, hn, hc⟩ := cocoProcessAnn_ok hj
    exact ⟨i, a, j, n, hj, hn, category_ids_eq_lastOccId cn n ▸ hc⟩

/-- Witness for c4_category_table_and_last_occurrence_ids at envGood with [cat]. -/
theorem c4_category_table_and_last_occurrence_ids_witness :
    (docGood.categories.length = (["cat"] : List String).length ∧
     ∀ k n, (["cat"] : List String)[k]? = some n →
       docGood.categories[k]? = some (CocoCat.mk (k + 1) n "none")) ∧
    ∀ ca ∈ docGood.annotations, ∃ i a j n,
      cocoProcessAnn (category_ids ["cat"]) i a j = Except.ok ca ∧
      a.name = some n ∧ lastOccId ["cat"] n = some ca.category_id :=
  @c4_category_table_and_last_occurrence_ids envGood ["cat"] docGood (by decide)

/-- Claim C5, confirmed.  Every emitted COCO annotation's bbox is exactly
[x1, y1, x2 - x1, y2 - y1] of its source box and its area is exactly
(x2 - x1) * (y2 - y1), in exact integer arithmetic; and per image, the
j-th emitted entry is computed from the j-th parsed box. -/
theorem c5_bbox_and_area_exact :
    (∀ (env : Env) (cn : List String) (doc : CocoDoc),
       convert_to_coco env cn = Except.ok doc →
       ∀ ca ∈ doc.annotations, ∃ i a j,
         cocoProcessAnn (category_ids cn) i a j = Except.ok ca ∧
         ca.bbox = [a.x1, a.y1, a.x2 - a.x1, a.y2 - a.y1] ∧
         ca.area = (a.x2 - a.x1) * (a.y2 - a.y1)) ∧
    (∀ (c : String → Option Nat) (i : Nat) (anns : List Ann) (k : Nat) (out : List CocoAnn),
       processAnns c i anns k = Except.ok out →
       out.length = anns.length ∧
       ∀ j (h1 : j < anns.length) (h2 : j < out.length),
         (out.get ⟨j, h2⟩).bbox
           = [(anns.get ⟨j, h1⟩).x1, (anns.get ⟨j, h1⟩).y1,
              (anns.get ⟨j, h1⟩).x2 - (anns.get ⟨j, h1⟩).x1,
              (anns.get ⟨j, h1⟩).y2 - (anns.get ⟨j, h1⟩).y1] ∧
         (out.get ⟨j, h2⟩).area
           = ((anns.get ⟨j, h1⟩).x2 - (anns.get ⟨j, h1⟩).x1)
             * ((anns.get ⟨j, h1⟩).y2 - (anns.get ⟨j, h1⟩).y1)) := by
  constructor
  · intro env cn doc h ca hca
    obtain ⟨pr, hloop, _, _, hanns⟩ := convert_to_coco_ok h
    rw [hanns] at hca
    obtain ⟨i, a, j, hj⟩ := cocoLoop_ok_mem_ann hloop ca hca
    obtain ⟨_, _, hbox, harea, _⟩ := cocoProcessAnn_ok hj
    exact ⟨i, a, j, hj, hbox, harea⟩
  · intro c i anns k out h
    refine ⟨processAnns_ok_length h, ?_⟩
    intro j h1 h2
    obtain ⟨_, _, hbox, harea, _⟩ := cocoProcessAnn_ok (processAnns_ok_get h j h1 h2)
    exact ⟨hbox, harea⟩

/-- Witness for c5_bbox_and_area_exact at envGood and at a single parsed box. -/
theorem c5_bbox_and_area_exact_witness :
    (∀ ca ∈ docGood.annotations, ∃ i a j,
       cocoProcessAnn (category_ids ["cat"]) i a j = Except.ok ca ∧
       ca.bbox = [a.x1, a.y1, a.x2 - a.x1, a.y2 - a.y1] ∧
       ca.area = (a.x2 - a.x1) * (a.y2 - a.y1)) ∧
    (docGood.annotations.length = ([annCat] : List Ann).length ∧
     ∀ j (h1 : j < ([annCat] : List Ann).length) (h2 : j < docGood.annotations.length),
       (docGood.annotations.get ⟨j, h2⟩).bbox
         = [(([annCat] : List Ann).get ⟨j, h1⟩).x1, (([annCat] : List Ann).get ⟨j, h1⟩).y1,
            (([annCat] : List Ann).get ⟨j, h1⟩).x2 - (([annCat] : List Ann).get ⟨j, h1⟩).x1,
            (([annCat] : List Ann).get ⟨j, h1⟩).y2 - (([annCat] : List Ann).get ⟨j, h1⟩).y1] ∧
       (docGood.annotations.get ⟨j, h2⟩).area
         = ((([annCat] : List Ann).get ⟨j, h1⟩).x2 - (([annCat] : List Ann).get ⟨j, h1⟩).x1)
           * ((([annCat] : List Ann).get ⟨j, h1⟩).y2 - (([annCat] : List Ann).get ⟨j, h1⟩).y1)) :=
  ⟨c5_bbox_and_area_exact.1 envGood ["cat"] docGood (by decide),
   c5_bbox_and_area_exact.2 (category_ids ["cat"]) 1 [annCat] 1 docGood.annotations (by decide)⟩

/-- Claim C6, confirmed.  In COCO export the annotation ids are exactly
the sequence 1, 2, ..., N in processing order (N the total number of
emitted annotations): they start at 1, increase by exactly 1 across all
images (one shared counter), and are therefore unique. -/
theorem c6_annotation_ids_sequential {env : Env} {cn : List String} {doc : CocoDoc}
    (h : convert_to_coco env cn = Except.ok doc) :
    doc.annotations.map CocoAnn.id = List.range' 1 doc.annotations.length ∧
    (doc.annotations.map CocoAnn.id).Nodup := by
  obtain ⟨pr, hloop, _, _, hanns⟩ := convert_to_coco_ok h
  have hids := cocoLoop_ok_annIds hloop
  rw [hanns]
  refine ⟨hids, ?_⟩
  rw [hids]
  exact List.nodup_range' 1 pr.2.length

/-- Witness for c6_annotation_ids_sequential at envGood. -/
theorem c6_annotation_ids_sequential_witness :
    docGood.annotations.map CocoAnn.id = List.range' 1 docGood.annotations.length ∧
    (docGood.annotations.map CocoAnn.id).Nodup :=
  @c6_annotation_ids_sequential envGood ["cat"] docGood (by decide)

/-- Claim C7, confirmed.  A parsed box whose class name the category
mapping does not know (including a missing name text) makes the
per-annotation step fail with an unknown-category error, so no entry is
emitted for that box and the run aborts; and on success every emitted
category_id is the id of an entry of the emitted categories table, so no
implicit category is ever created. -/
theorem c7_unknown_category_aborts :
    (∀ (c : String → Option Nat) (i : Nat) (a : Ann) (k : Nat),
       (a.name = none ∨ ∃ n, a.name = some n ∧ c n = none) →
       ∃ m, cocoProcessAnn c i a k = Except.error (ConvErr.unknownCategory m)) ∧
    (∀ (env : Env) (cn : List String) (doc : CocoDoc),
       convert_to_coco env cn = Except.ok doc →
       ∀ ca ∈ doc.annotations, ∃ cat, cat ∈ doc.categories ∧ cat.id = ca.category_id) := by
  refine ⟨fun c i a k h2 => cocoProcessAnn_err_unknown i k h2, ?_⟩
  intro env cn doc h ca hca
  obtain ⟨pr, hloop, hcat, _, hanns⟩ := convert_to_coco_ok h
  rw [hanns] at hca
  obtain ⟨i, a, j, hj⟩ := cocoLoop_ok_mem_ann hloop ca hca
  obtain ⟨_, _, _, _, n, hn, hc⟩ := cocoProcessAnn_ok hj
  have hmem := category_ids_mem hc
  rw [hcat]
  exact ⟨⟨ca.category_id, n, "none"⟩,
    List.mem_map_of_mem (fun p => CocoCat.mk p.1 p.2 "none") hmem, rfl⟩

/-- Witness for c7_unknown_category_aborts: a cat box against category
list [dog], and the successful envGood run. -/
theorem c7_unknown_category_aborts_witness :
    (∃ m, cocoProcessAnn (category_ids ["dog"]) 1 annCat 1
      = Except.error (ConvErr.unknownCategory m)) ∧
    (∀ ca ∈ docGood.annotations, ∃ cat, cat ∈ docGood.categories ∧ cat.id = ca.category_id) :=
  ⟨c7_unknown_category_aborts.1 (category_ids ["dog"]) 1 annCat 1
      (Or.inr ⟨"cat", rfl, by decide⟩),
   c7_unknown_category_aborts.2 envGood ["cat"] docGood (by decide)⟩

/-- Claim C8, confirmed.  Every Annotations XML file written by VOC export
is built from the parsed boxes of the matching annotation file, one object
block per box in file order, and each object block's bndbox carries
xmin, ymin, xmax, ymax texts that are exactly the decimal renderings of
the parsed x1, y1, x2, y2 — no coordinate transformation. -/
theorem c8_voc_roundtrips_coordinates {env : Env} {cn : List String} {out : VocOutput}
    (h : convert_to_voc env cn = Except.ok out) :
    ∀ q ∈ out.annFiles, ∃ (f : String) (wh : Nat × Nat) (x : XmlEl) (anns : List Ann),
      f ∈ env.listing ∧
      env.annFile (splitextBase f) = some x ∧
      parse_halcon_ann x = Except.ok anns ∧
      q = (splitextBase f, buildVocTree env.imgDir f wh.1 wh.2 anns) ∧
      q.2.findall "object" = anns.map buildVocObject ∧
      ∀ a ∈ anns,
        ((buildVocObject a).findPath "bndbox" "xmin").bind XmlEl.text = some (toString a.x1) ∧
        ((buildVocObject a).findPath "bndbox" "ymin").bind XmlEl.text = some (toString a.y1) ∧
        ((buildVocObject a).findPath "bndbox" "xmax").bind XmlEl.text = some (toString a.x2) ∧
        ((buildVocObject a).findPath "bndbox" "ymax").bind XmlEl.text = some (toString a.y2) := by
  intro q hq
  obtain ⟨pr, hloop, hfiles, _⟩ := convert_to_voc_ok h
  rw [hfiles] at hq
  obtain ⟨f, wh, x, anns, hmem, hif, h1, h2, h3, heq⟩ := vocLoop_ok_files hloop q hq
  subst heq
  exact ⟨f, wh, x, anns, hmem, h2, h3, rfl,
    buildVocTree_objects env.imgDir f wh.1 wh.2 anns,
    fun a ha => buildVocObject_bndbox a⟩

/-- Witness for c8_voc_roundtrips_coordinates at envGood, specialised to
the single written annotation file. -/
theorem c8_voc_roundtrips_coordinates_witness :
    ∃ (f : String) (wh : Nat × Nat) (x : XmlEl) (anns : List Ann),
      f ∈ envGood.listing ∧
      envGood.annFile (splitextBase f) = some x ∧
      parse_halcon_ann x = Except.ok anns ∧
      ("a", buildVocTree "img" "a.jpg" 100 50 [annCat])
        = (splitextBase f, buildVocTree envGood.imgDir f wh.1 wh.2 anns) ∧
      ("a", buildVocTree "img" "a.jpg" 100 50 [annCat]).2.findall "object"
        = anns.map buildVocObject ∧
      ∀ a ∈ anns,
        ((buildVocObject a).findPath "bndbox" "xmin").bind XmlEl.text = some (toString a.x1) ∧
        ((buildVocObject a).findPath "bndbox" "ymin").bind XmlEl.text = some (toString a.y1) ∧
        ((buildVocObject a).findPath "bndbox" "xmax").bind XmlEl.text = some (toString a.x2) ∧
        ((buildVocObject a).findPath "bndbox" "ymax").bind XmlEl.text = some (toString a.y2) :=
  @c8_voc_roundtrips_coordinates envGood [] vocOutGood (by rfl)
    ("a", buildVocTree "img" "a.jpg" 100 50 [annCat])
    (List.mem_cons_self ("a", buildVocTree "img" "a.jpg" 100 50 [annCat]) [])

/-- Claim C9, confirmed.  On success the parser returns one Ann per object
node of the annotation root, in file order, each carrying exactly the
name text and the four integer corners of its node; and if any object
node lacks one of the five required fields, or a corner text is not an
integer, the whole parse returns an error (no partial result). -/
theorem c9_parser_shape_and_failfast :
    (∀ (x : XmlEl) (anns : List Ann), parse_halcon_ann x = Except.ok anns →
       anns.length = (x.findall "object").length ∧
       ∀ k (h1 : k < (x.findall "object").length) (h2 : k < anns.length),
         objFieldsOk ((x.findall "object").get ⟨k, h1⟩) (anns.get ⟨k, h2⟩)) ∧
    (∀ (x o : XmlEl), o ∈ x.findall "object" → objBad o →
       ∃ e, parse_halcon_ann x = Except.error e) := by
  constructor
  · intro x anns h
    refine ⟨parseObjs_ok_length h, ?_⟩
    intro k h1 h2
    exact parseObject_ok (parseObjs_ok_get h k h1 h2)
  · intro x o hmem hbad
    exact parseObjs_err_of_mem hmem (parseObject_err_of_bad hbad)

/-- Witness for c9_parser_shape_and_failfast: the good file xmlCat and the
file xmlNoY2 whose object lacks y2. -/
theorem c9_parser_shape_and_failfast_witness :
    (([annCat] : List Ann).length = (xmlCat.findall "object").length ∧
     ∀ k (h1 : k < (xmlCat.findall "object").length) (h2 : k < ([annCat] : List Ann).length),
       objFieldsOk ((xmlCat.findall "object").get ⟨k, h1⟩) (([annCat] : List Ann).get ⟨k, h2⟩)) ∧
    (∃ e, parse_halcon_ann xmlNoY2 = Except.error e) :=
  ⟨c9_parser_shape_and_failfast.1 xmlCat [annCat] (by decide),
   c9_parser_shape_and_failfast.2 xmlNoY2 objNoY2 (List.mem_cons_self objNoY2 [])
     (Or.inr (Or.inr (Or.inr (Or.inr (Or.inl rfl)))))⟩

/-- Claim C10, confirmed.  VOC export never reads the categoryNames
argument: any two category lists give identical results on any input, and
a failing VOC run never fails with an unknown-category error. -/
theorem c10_voc_output_independent_of_categories :
    ∀ (env : Env) (cn1 cn2 : List String),
      convert_to_voc env cn1 = convert_to_voc env cn2 ∧
      ∀ e, convert_to_voc env cn1 = Except.error e → ∀ n, e ≠ ConvErr.unknownCategory n := by
  intro env cn1 cn2
  refine ⟨rfl, ?_⟩
  intro e he n
  exact vocLoop_err_not_unknown (convert_to_voc_err he) n

/-- Witness for c10_voc_output_independent_of_categories at envMiss. -/
theorem c10_voc_output_independent_of_categories_witness :
    convert_to_voc envMiss ["cat"] = convert_to_voc envMiss [] ∧
    ConvErr.missingAnnFile "a" ≠ ConvErr.unknownCategory none :=
  ⟨(c10_voc_output_independent_of_categories envMiss ["cat"] []).1,
   (c10_voc_output_independent_of_categories envMiss ["cat"] []).2
     (ConvErr.missingAnnFile "a") (by rfl) none⟩

end HalconConv
